import Mathlib

/-!
Verification development for the Unified-SOC-Platform repository.

The repository has two Python services:
  * `threat-hunting/app.py` — class `ThreatHunter`: indicator-of-compromise
    (IOC) classification by ordered regular-expression matching, query
    construction for MITRE ATT&CK technique hunts, IOC hunts and four canned
    anomaly sub-hunts, and timeline aggregation of search hits.
  * `ai-chat/app.py` — class `SOCAnalyzer`: log search, alert retrieval and
    assembly of a bounded log excerpt into a prompt for a language model.

This file shallowly embeds those parts.  Conventions of the embedding:
  * Strings are Lean `String`s; Python string slicing `s[:n]` is `strTake`
    (first `n` code points, matching Python's code-point indexing).
  * Python's `re.match` with a pattern of the form `^X$` accepts a string
    `s` exactly when `X` matches all of `s`, or all of `s` minus one final
    newline (Python's `$` also matches just before a trailing newline);
    this is `reMatchList`.  Each regular expression is translated to a
    decidable predicate on `List Char` describing the same language;
    character classes are the ASCII sets written in the patterns (the
    Python `str` patterns would additionally accept non-ASCII Unicode
    whitespace in `\s`; everything proved here stays within ASCII).
  * `datetime.utcnow()` is an `Int` parameter `now` in seconds;
    `timedelta(hours=1/24, days=7)` are the constants 3600, 86400, 604800.
    The serialization `start_time.isoformat()` is a boundary concern and is
    kept as the structured value inside the query clause.
  * The Elasticsearch client is an explicit collaborator
    `SearchExec : String → SearchBody → Except String SearchResult`
    (index pattern and query body in, result or caught-exception message
    out); `self.es` being `None` is the `none` case of `Option SearchExec`.
  * Python dicts keyed by strings are association lists with CPython's
    update semantics (`dictInsert` replaces in place, appends new keys).
-/

/-! ## Character classes used by the IOC patterns (`ThreatHunter.ioc_patterns`) -/

/-- The character class `[a-zA-Z0-9]` of the domain pattern. -/
def isAlnumChar (c : Char) : Bool :=
  c.isAlpha || c.isDigit

/-- The character class `[a-fA-F0-9]` of the md5/sha1/sha256 patterns. -/
def isHexChar (c : Char) : Bool :=
  c.isDigit || ('a' ≤ c && c ≤ 'f') || ('A' ≤ c && c ≤ 'F')

/-- Python's `\s` class, restricted to its ASCII members. -/
def pySpace (c : Char) : Bool :=
  c = ' ' || c = '\t' || c = '\n' || c = '\r' || c = '\x0b' || c = '\x0c'

/-- The character class `[a-zA-Z0-9._%+-]` of the email pattern's local part. -/
def isLocalChar (c : Char) : Bool :=
  isAlnumChar c || c = '.' || c = '_' || c = '%' || c = '+' || c = '-'

/-- The character class `[a-zA-Z0-9.-]` of the email pattern's domain part. -/
def isDomChar (c : Char) : Bool :=
  isAlnumChar c || c = '.' || c = '-'

/-! ## Splitting on a separator character

The IPv4 and domain patterns are concatenations of dot-free pieces joined by
literal dots, so full-string matching factors through splitting at the dots.
`splitOnChar` is the standard split: it always returns at least one part. -/

def splitOnChar (sep : Char) : List Char → List (List Char)
  | [] => [[]]
  | c :: rest =>
    if c = sep then [] :: splitOnChar sep rest
    else
      match splitOnChar sep rest with
      | [] => [[c]]
      | p :: ps => (c :: p) :: ps

/-! ## The seven IOC patterns, in the dictionary order of `ioc_patterns` -/

/-- One alternative block of the IPv4 pattern:
`25[0-5]|2[0-4][0-9]|[01]?[0-9][0-9]?` as a whole-string language. -/
def matchesOctet : List Char → Bool
  | [a] => a.isDigit
  | [a, b] => a.isDigit && b.isDigit
  | [a, b, c] =>
      (a == '2' && b == '5' && decide ('0' ≤ c) && decide (c ≤ '5')) ||
      (a == '2' && decide ('0' ≤ b) && decide (b ≤ '4') && c.isDigit) ||
      ((a == '0' || a == '1') && b.isDigit && c.isDigit)
  | _ => false

/-- The IPv4 pattern on its dot-separated parts: exactly four octets. -/
def ipParts : List (List Char) → Bool
  | [o1, o2, o3, o4] =>
      matchesOctet o1 && matchesOctet o2 && matchesOctet o3 && matchesOctet o4
  | _ => false

/-- `ioc_patterns['ip']`:
`^(?:(?:25[0-5]|2[0-4][0-9]|[01]?[0-9][0-9]?)\.){3}(?:25[0-5]|2[0-4][0-9]|[01]?[0-9][0-9]?)$`. -/
def matchesIp (cs : List Char) : Bool :=
  ipParts (splitOnChar '.' cs)

/-- One label of the domain pattern:
`[a-zA-Z0-9](?:[a-zA-Z0-9-]{0,61}[a-zA-Z0-9])?` as a whole-string language
(length 1–63, first and last character alphanumeric, inner characters
alphanumeric or hyphen). -/
def matchesLabel : List Char → Bool
  | [] => false
  | a :: rest =>
    isAlnumChar a &&
      (match rest.getLast? with
       | none => true
       | some z =>
           decide (rest.length ≤ 62) && isAlnumChar z &&
             rest.dropLast.all (fun c => isAlnumChar c || c == '-'))

/-- The final block `[a-zA-Z]{2,}` of the domain and email patterns. -/
def matchesTld (cs : List Char) : Bool :=
  decide (2 ≤ cs.length) && cs.all Char.isAlpha

/-- The domain pattern on its dot-separated parts: at least two parts, all but
the last a label, the last `[a-zA-Z]{2,}`. -/
def domainParts (parts : List (List Char)) : Bool :=
  decide (2 ≤ parts.length) && parts.dropLast.all matchesLabel &&
    (match parts.getLast? with
     | some tld => matchesTld tld
     | none => false)

/-- `ioc_patterns['domain']`:
`^(?:[a-zA-Z0-9](?:[a-zA-Z0-9-]{0,61}[a-zA-Z0-9])?\.)+[a-zA-Z]{2,}$`. -/
def matchesDomain (cs : List Char) : Bool :=
  domainParts (splitOnChar '.' cs)

/-- `ioc_patterns['md5']`: `^[a-fA-F0-9]{32}$`. -/
def matchesMd5 (cs : List Char) : Bool :=
  decide (cs.length = 32) && cs.all isHexChar

/-- `ioc_patterns['sha1']`: `^[a-fA-F0-9]{40}$`. -/
def matchesSha1 (cs : List Char) : Bool :=
  decide (cs.length = 40) && cs.all isHexChar

/-- `ioc_patterns['sha256']`: `^[a-fA-F0-9]{64}$`. -/
def matchesSha256 (cs : List Char) : Bool :=
  decide (cs.length = 64) && cs.all isHexChar

/-- The domain side `[a-zA-Z0-9.-]+\.[a-zA-Z]{2,}` of the email pattern:
some split point is a dot with a nonempty all-`isDomChar` prefix and an
`[a-zA-Z]{2,}` suffix. -/
def emailDomainOk (l : List Char) : Bool :=
  (List.range l.length).any fun i =>
    (l.get? i == some '.') && decide (0 < i) &&
      (l.take i).all isDomChar && matchesTld (l.drop (i + 1))

/-- `ioc_patterns['email']`: `^[a-zA-Z0-9._%+-]+@[a-zA-Z0-9.-]+\.[a-zA-Z]{2,}$`.
The local part cannot contain `@`, so a match splits the string at its first
`@`. -/
def matchesEmail (cs : List Char) : Bool :=
  match cs.dropWhile (fun c => !(c == '@')) with
  | '@' :: dom =>
      decide (0 < (cs.takeWhile (fun c => !(c == '@'))).length) &&
        (cs.takeWhile (fun c => !(c == '@'))).all isLocalChar &&
        emailDomainOk dom
  | _ => false

/-- The characters of the literal scheme `http://`. -/
def httpChars : List Char := ['h', 't', 't', 'p', ':', '/', '/']

/-- The characters of the literal scheme `https://`. -/
def httpsChars : List Char := ['h', 't', 't', 'p', 's', ':', '/', '/']

/-- Strips the `https?://` scheme of the url pattern, if present. -/
def dropScheme : List Char → Option (List Char)
  | 'h' :: 't' :: 't' :: 'p' :: ':' :: '/' :: '/' :: rest => some rest
  | 'h' :: 't' :: 't' :: 'p' :: 's' :: ':' :: '/' :: '/' :: rest => some rest
  | _ => none

/-- The character class `[^\s/$.?#]` of the url pattern's first
post-scheme character. -/
def urlFirstOk (c : Char) : Bool :=
  !(pySpace c) && !(c == '/') && !(c == '$') && !(c == '.') &&
    !(c == '?') && !(c == '#')

/-- `ioc_patterns['url']`: `^https?://[^\s/$.?#].[^\s]*$`.  After the scheme:
one character from `[^\s/$.?#]`, one character that is not a newline (`.`),
then any number of non-whitespace characters. -/
def matchesUrl (cs : List Char) : Bool :=
  match dropScheme cs with
  | some (a :: b :: rest) =>
      urlFirstOk a && !(b == '\n') && rest.all (fun c => !(pySpace c))
  | _ => false

/-- `re.match(p, s)` for an anchored pattern `p = ^X$`: `X` matches the whole
string, or the whole string minus one trailing newline. -/
def reMatchList (m : List Char → Bool) (cs : List Char) : Bool :=
  m cs ||
    (match cs.getLast? with
     | some z => (z == '\n') && m cs.dropLast
     | none => false)

/-! ## `ThreatHunter._detect_ioc_type` -/

/-- The indicator kinds: the keys of `ioc_patterns`, plus `unknown`. -/
inductive IocType where
  | ip
  | domain
  | md5
  | sha1
  | sha256
  | email
  | url
  | unknown
deriving DecidableEq, Repr

/-- `ThreatHunter._detect_ioc_type`: try the patterns in the dictionary's
insertion order and return the first that matches, else `unknown`. -/
def detect_ioc_type (ioc : String) : IocType :=
  if reMatchList matchesIp ioc.data then .ip
  else if reMatchList matchesDomain ioc.data then .domain
  else if reMatchList matchesMd5 ioc.data then .md5
  else if reMatchList matchesSha1 ioc.data then .sha1
  else if reMatchList matchesSha256 ioc.data then .sha256
  else if reMatchList matchesEmail ioc.data then .email
  else if reMatchList matchesUrl ioc.data then .url
  else .unknown

/-! ## String helpers of the embedding -/

/-- Python string slicing `s[:n]`: the first `n` code points. -/
def strTake (s : String) (n : Nat) : String :=
  ⟨s.data.take n⟩

/-- Python dict lookup `d[k]` / `k in d` on an association list. -/
def dictGet {α : Type} : List (String × α) → String → Option α
  | [], _ => none
  | (k0, v) :: rest, k => if k0 = k then some v else dictGet rest k

/-- Python dict assignment `d[k] = v`: replace in place if the key exists,
append at the end otherwise (CPython insertion-order semantics). -/
def dictInsert {α : Type} : List (String × α) → String → α → List (String × α)
  | [], k, v => [(k, v)]
  | (k0, v0) :: rest, k, v =>
      if k0 = k then (k0, v) :: rest else (k0, v0) :: dictInsert rest k v

/-! ## The structured query model

Every Elasticsearch `search_body` dict built by either service has the shape
`{query: {bool: {must: [...], should: [...]}}, size, sort, aggs?}`; its
clauses are of the handful of shapes below. -/

/-- One clause of a `bool` query, covering exactly the clause shapes the two
services build. -/
inductive Clause where
  /-- `{"query_string": {"query": q}}` -/
  | queryString (query : String)
  /-- `{"term": {field: value}}` -/
  | term (field value : String)
  /-- `{"range": {field: {"gte": t.isoformat()}}}` — an absolute lower
  bound, kept as the structured time `t` (seconds); `isoformat` is the
  wire-serialization boundary. -/
  | rangeGteTime (field : String) (gte : Int)
  /-- `{"range": {field: {"gte": expr}}}` — a relative date-math string such
  as `"now-24h"`. -/
  | rangeGteExpr (field : String) (gte : String)
  /-- `{"range": {field: {"gte": n}}}` — a numeric lower bound. -/
  | rangeGteNat (field : String) (gte : Nat)
  /-- `{"range": {field: {"time_zone": tz, "format": fmt, "gte": bound}}}` -/
  | rangeHourGte (field tz fmt bound : String)
  /-- `{"range": {field: {"time_zone": tz, "format": fmt, "lt": bound}}}` -/
  | rangeHourLt (field tz fmt bound : String)
deriving DecidableEq, Repr

/-- A whole `search_body`: `must` clauses, `should` clauses, `size`,
`sort` (field/direction pairs) and `aggs` (name, field, bucket size). -/
structure SearchBody where
  must : List Clause
  should : List Clause
  size : Nat
  sort : List (String × String)
  aggs : List (String × String × Nat)
deriving DecidableEq, Repr

/-- The `_source` of one search hit, restricted to the fields either service
reads: `@timestamp`, `message`, and `event.original` (each absent when the
document lacks it). -/
structure Hit where
  timestamp : Option String
  message : Option String
  event_original : Option String
deriving DecidableEq, Repr

/-- A search response, restricted to what the services read:
`hits.total.value` and `hits.hits`. -/
structure SearchResult where
  total : Nat
  hits : List Hit
deriving DecidableEq, Repr

/-- The Search Executor collaborator: `es.search(index=..., body=...)`,
returning a result or the message of a raised exception. -/
def SearchExec : Type :=
  String → SearchBody → Except String SearchResult

/-! ## `ThreatHunter.attack_patterns` (the Technique Catalog) -/

/-- One entry of `attack_patterns`: display name, canned query string,
description. -/
structure Technique where
  name : String
  query : String
  description : String
deriving DecidableEq, Repr

/-- The static MITRE ATT&CK catalog built in `ThreatHunter.__init__`. -/
def attack_patterns : List (String × Technique) :=
  [("T1078", ⟨"Valid Accounts",
      "event.category:authentication AND event.outcome:success AND user.name:(\"admin\" OR \"administrator\" OR \"root\")",
      "Detect use of valid accounts for unauthorized access"⟩),
   ("T1110", ⟨"Brute Force",
      "event.category:authentication AND event.outcome:failure",
      "Multiple failed authentication attempts"⟩),
   ("T1059", ⟨"Command and Scripting Interpreter",
      "process.name:(\"cmd.exe\" OR \"powershell.exe\" OR \"bash\" OR \"sh\") AND process.args:*",
      "Suspicious command line activity"⟩),
   ("T1055", ⟨"Process Injection",
      "event.category:process AND process.name:(\"svchost.exe\" OR \"winlogon.exe\" OR \"lsass.exe\")",
      "Potential process injection activity"⟩),
   ("T1071", ⟨"Application Layer Protocol",
      "network.protocol:(\"http\" OR \"https\" OR \"dns\") AND destination.port:(80 OR 443 OR 53)",
      "Suspicious network protocol usage"⟩),
   ("T1105", ⟨"Ingress Tool Transfer",
      "file.extension:(\"exe\" OR \"dll\" OR \"bat\" OR \"ps1\" OR \"sh\") AND file.path:*",
      "File transfers and tool deployment"⟩)]

/-- `self.attack_patterns[technique_id]` guarded by
`technique_id not in self.attack_patterns`. -/
def lookupTechnique (technique_id : String) : Option Technique :=
  dictGet attack_patterns technique_id

/-! ## Time-range computation

`hunt_mitre_attack` and `hunt_iocs` (threat-hunting service) default the
unknown-token case to 24 hours; `search_logs` (ai-chat service) defaults it
to 1 hour.  Times are seconds; `now` is `datetime.utcnow()`. -/

/-- The `time_range` dispatch of `hunt_mitre_attack` / `hunt_iocs`
(`else`-branch: 24 hours back). -/
def hunt_time_start (now : Int) (time_range : String) : Int :=
  if time_range = "1h" then now - 3600
  else if time_range = "24h" then now - 86400
  else if time_range = "7d" then now - 604800
  else now - 86400

/-- The `time_range` dispatch of `SOCAnalyzer.search_logs`
(`else`-branch: 1 hour back). -/
def search_logs_start (now : Int) (time_range : String) : Int :=
  if time_range = "1h" then now - 3600
  else if time_range = "24h" then now - 86400
  else if time_range = "7d" then now - 604800
  else now - 3600

/-! ## Query bodies, one `def` per `search_body` dict in the source -/

/-- `ThreatHunter._build_ioc_query`: per-kind field disjunction as a
query string; an unclassified indicator becomes a bare quoted term. -/
def build_ioc_query (ioc : String) (ioc_type : IocType) : String :=
  match ioc_type with
  | .ip =>
      "(source.ip:\"" ++ ioc ++ "\" OR destination.ip:\"" ++ ioc ++
        "\" OR client.ip:\"" ++ ioc ++ "\" OR server.ip:\"" ++ ioc ++ "\")"
  | .domain =>
      "(domain:\"" ++ ioc ++ "\" OR url.domain:\"" ++ ioc ++
        "\" OR dns.question.name:\"" ++ ioc ++ "\")"
  | .md5 | .sha1 | .sha256 =>
      "(file.hash.md5:\"" ++ ioc ++ "\" OR file.hash.sha1:\"" ++ ioc ++
        "\" OR file.hash.sha256:\"" ++ ioc ++ "\")"
  | .email =>
      "(email.from.address:\"" ++ ioc ++ "\" OR email.to.address:\"" ++
        ioc ++ "\" OR user.email:\"" ++ ioc ++ "\")"
  | .url =>
      "(url.original:\"" ++ ioc ++ "\" OR url.full:\"" ++ ioc ++ "\")"
  | .unknown =>
      "\"" ++ ioc ++ "\""

/-- The `search_body` of `hunt_mitre_attack`. -/
def mitre_body (technique : Technique) (start_time : Int) : SearchBody :=
  ⟨[Clause.queryString technique.query,
    Clause.rangeGteTime "@timestamp" start_time],
   [], 100, [("@timestamp", "desc")],
   [("hosts", "host.name.keyword", 10), ("users", "user.name.keyword", 10)]⟩

/-- The `search_body` of the `hunt_iocs` loop. -/
def ioc_body (query : String) (start_time : Int) : SearchBody :=
  ⟨[Clause.queryString query,
    Clause.rangeGteTime "@timestamp" start_time],
   [], 50, [("@timestamp", "desc")], []⟩

/-- The `search_body` of `SOCAnalyzer.search_logs`. -/
def search_logs_body (now : Int) (query : String) (time_range : String) :
    SearchBody :=
  ⟨[Clause.queryString query,
    Clause.rangeGteTime "@timestamp" (search_logs_start now time_range)],
   [], 50, [("@timestamp", "desc")], []⟩

/-- The `search_body` of `SOCAnalyzer.get_security_alerts`. -/
def security_alerts_body (severity : String) (limit : Nat) : SearchBody :=
  ⟨[Clause.term "event.category" "security",
    Clause.rangeGteExpr "@timestamp" "now-24h"],
   [Clause.term "event.severity" severity],
   limit, [("@timestamp", "desc")], []⟩

/-- The `search_body` of `ThreatHunter._hunt_unusual_login_times` — note it
interpolates the raw token into `f"now-{time_range}"`. -/
def unusual_login_times_body (time_range : String) : SearchBody :=
  ⟨[Clause.term "event.category" "authentication",
    Clause.term "event.outcome" "success",
    Clause.rangeGteExpr "@timestamp" ("now-" ++ time_range)],
   [Clause.rangeHourGte "@timestamp" "UTC" "hour" "22",
    Clause.rangeHourLt "@timestamp" "UTC" "hour" "06"],
   20, [("@timestamp", "desc")], []⟩

/-- The `search_body` of `ThreatHunter._hunt_privilege_escalation`. -/
def privilege_escalation_body (time_range : String) : SearchBody :=
  ⟨[Clause.queryString
      "process.args:(\"runas\" OR \"sudo\" OR \"su\" OR \"net user\" OR \"net group\")",
    Clause.rangeGteExpr "@timestamp" ("now-" ++ time_range)],
   [], 20, [("@timestamp", "desc")], []⟩

/-- The `search_body` of `ThreatHunter._hunt_data_exfiltration`. -/
def data_exfiltration_body (time_range : String) : SearchBody :=
  ⟨[Clause.rangeGteNat "network.bytes" 10485760,
    Clause.term "network.direction" "outbound",
    Clause.rangeGteExpr "@timestamp" ("now-" ++ time_range)],
   [], 20, [("network.bytes", "desc")], []⟩

/-- The `search_body` of `ThreatHunter._hunt_lateral_movement`. -/
def lateral_movement_body (time_range : String) : SearchBody :=
  ⟨[Clause.queryString
      "process.name:(\"net.exe\" OR \"psexec.exe\" OR \"wmic.exe\" OR \"ssh.exe\")",
    Clause.rangeGteExpr "@timestamp" ("now-" ++ time_range)],
   [], 20, [("@timestamp", "desc")], []⟩

/-! ## `ThreatHunter._create_timeline` -/

/-- The loop body of `_create_timeline`: skip hits whose `@timestamp`
defaults to (or literally equals) `'Unknown'`; otherwise bump the count of
the `timestamp[:10]` date key. -/
def timeline_step (timeline : List (String × Nat)) (hit : Hit) :
    List (String × Nat) :=
  let timestamp := hit.timestamp.getD "Unknown"
  if timestamp ≠ "Unknown" then
    let date_key := strTake timestamp 10
    dictInsert timeline date_key ((dictGet timeline date_key).getD 0 + 1)
  else timeline

/-- `ThreatHunter._create_timeline`. -/
def create_timeline (hits : List Hit) : List (String × Nat) :=
  hits.foldl timeline_step []

/-! ## `ThreatHunter.hunt_mitre_attack` -/

/-- The result of `hunt_mitre_attack`: every failure path in the source
returns a `{"error": msg}` dict; success returns technique, raw results and
timeline. -/
inductive MitreResult where
  | failure (msg : String)
  | ok (technique : Technique) (results : SearchResult)
      (timeline : List (String × Nat))
deriving Repr

/-- `ThreatHunter.hunt_mitre_attack`: connectivity check, catalog lookup,
then query build + search inside `try`, whose exception becomes
`{"error": str(e)}`. -/
def hunt_mitre_attack (es : Option SearchExec) (now : Int)
    (technique_id : String) (time_range : String) : MitreResult :=
  match es with
  | none => .failure "Elasticsearch not connected"
  | some search =>
    match lookupTechnique technique_id with
    | none => .failure ("Unknown MITRE ATT&CK technique: " ++ technique_id)
    | some technique =>
      match search "*" (mitre_body technique (hunt_time_start now time_range)) with
      | .error e => .failure e
      | .ok result => .ok technique result (create_timeline result.hits)

/-! ## `ThreatHunter.hunt_iocs` -/

/-- One entry of the per-indicator report: the `type`/`matches`/`hits` dict
(`match_count` is the source's `matches` key) or a caught error. -/
inductive IocEntry where
  | ok (ioc_type : IocType) (match_count : Nat) (hits : List Hit)
  | err (msg : String)
deriving Repr

/-- The result of `hunt_iocs`: the connectivity error dict, or the
per-indicator dict. -/
inductive IocHuntResult where
  | failure (msg : String)
  | report (entries : List (String × IocEntry))
deriving Repr

/-- The body of the `for ioc in iocs` loop of `hunt_iocs`: classify, build
the query, and — if the query string is truthy — search inside `try`,
recording either the match data or the exception message under the raw
indicator key. -/
def hunt_iocs_step (search : SearchExec) (now : Int) (time_range : String)
    (results : List (String × IocEntry)) (ioc : String) :
    List (String × IocEntry) :=
  let ioc_type := detect_ioc_type ioc
  let query := build_ioc_query ioc ioc_type
  if query = "" then results
  else
    match search "*" (ioc_body query (hunt_time_start now time_range)) with
    | .ok result =>
        dictInsert results ioc (.ok ioc_type result.total result.hits)
    | .error e => dictInsert results ioc (.err e)

/-- `ThreatHunter.hunt_iocs`. -/
def hunt_iocs (es : Option SearchExec) (now : Int) (iocs : List String)
    (time_range : String) : IocHuntResult :=
  match es with
  | none => .failure "Elasticsearch not connected"
  | some search =>
      .report (iocs.foldl (hunt_iocs_step search now time_range) [])

/-- The query body the `hunt_iocs` loop sends for one indicator. -/
def ioc_query_body (now : Int) (time_range : String) (ioc : String) :
    SearchBody :=
  ioc_body (build_ioc_query ioc (detect_ioc_type ioc))
    (hunt_time_start now time_range)

/-- The entry the `hunt_iocs` loop records for one indicator. -/
def ioc_entry (search : SearchExec) (now : Int) (time_range : String)
    (ioc : String) : IocEntry :=
  match search "*" (ioc_query_body now time_range ioc) with
  | .ok result => .ok (detect_ioc_type ioc) result.total result.hits
  | .error e => .err e

/-! ## `ThreatHunter.hunt_anomalies` -/

/-- The result of `hunt_anomalies`: the connectivity error dict, or the four
named sub-hunt outcomes, each a result or a caught error. -/
inductive AnomaliesResult where
  | failure (msg : String)
  | report (entries : List (String × Except String SearchResult))
deriving Repr

/-- `ThreatHunter.hunt_anomalies`: the four canned sub-hunts, each run
independently with its own `try`/`except`. -/
def hunt_anomalies (es : Option SearchExec) (time_range : String) :
    AnomaliesResult :=
  match es with
  | none => .failure "Elasticsearch not connected"
  | some search =>
      .report
        [("unusual_logins", search "*" (unusual_login_times_body time_range)),
         ("privilege_escalation",
            search "*" (privilege_escalation_body time_range)),
         ("data_exfiltration",
            search "*" (data_exfiltration_body time_range)),
         ("lateral_movement",
            search "*" (lateral_movement_body time_range))]

/-! ## `SOCAnalyzer.analyze_with_ai` (prompt assembly) -/

/-- `source.get('message', source.get('event', {}).get('original', 'No message'))`. -/
def hit_message (hit : Hit) : String :=
  hit.message.getD (hit.event_original.getD "No message")

/-- The `log_context` accumulation of `analyze_with_ai`: at most the first
10 hits, each contributing `Time: {timestamp}\nLog: {message}\n\n`; an input
without a well-formed `hits.hits` (the guard `'hits' in logs_data and
'hits' in logs_data['hits']`) contributes nothing. -/
def log_context (logs_data : Option SearchResult) : String :=
  match logs_data with
  | none => ""
  | some r =>
      (r.hits.take 10).foldl
        (fun acc hit =>
          acc ++ "Time: " ++ hit.timestamp.getD "Unknown" ++ "\nLog: " ++
            hit_message hit ++ "\n\n")
        ""

/-- The f-string prompt of `analyze_with_ai`, with the context block
truncated to its first 2000 characters (`log_context[:2000]`); the stray
`# Limit context length` sits inside the template in the source and is
reproduced verbatim. -/
def analyze_prompt (logs_data : Option SearchResult) (question : String) :
    String :=
  "\nYou are a cybersecurity expert analyzing SOC logs. Based on the following log data, answer the user's question.\n\nLOG DATA:\n" ++
    strTake (log_context logs_data) 2000 ++
    "  # Limit context length\n\nUSER QUESTION: " ++ question ++
    "\n\nPlease provide:\n1. A clear analysis of the logs\n2. Any security concerns or patterns identified\n3. Recommended actions if applicable\n4. Risk assessment (Low/Medium/High)\n\nKeep your response focused and actionable for SOC analysts.\n"

/-! ## Derived definitions used to state the verified properties -/

/-- A clause that is an absolute (`isoformat`-style) lower bound. -/
def is_absolute_time_clause : Clause → Bool
  | Clause.rangeGteTime _ _ => true
  | _ => false

/-- A `must` list carries an explicit time-window lower bound on the
timestamp field (absolute or date-math). -/
def has_timestamp_lower_bound (b : SearchBody) : Bool :=
  b.must.any fun c =>
    match c with
    | Clause.rangeGteTime f _ => f == "@timestamp"
    | Clause.rangeGteExpr f _ => f == "@timestamp"
    | _ => false

/-- Whether a hit is counted by `_create_timeline` under date key `k`: its
timestamp is present (and not the literal default) and its first ten
characters — the `YYYY-MM-DD` UTC calendar day of an ISO-8601 UTC
timestamp — equal `k`. -/
def hit_on_day (k : String) (hit : Hit) : Bool :=
  (hit.timestamp.getD "Unknown" != "Unknown") &&
    (strTake (hit.timestamp.getD "Unknown") 10 == k)

/-- Stated from the spec's words for `buildIocQuery`: OR-join of clause
strings. -/
def joinOr : List String → String
  | [] => ""
  | [x] => x
  | x :: xs => x ++ " OR " ++ joinOr xs

/-- Stated from the spec's words for `buildIocQuery`: one parenthesized
clause OR-joining the field bindings. -/
def orJoinParen (xs : List String) : String :=
  "(" ++ joinOr xs ++ ")"

/-- A Search Executor that answers every query with an empty success. -/
def trivial_search : SearchExec :=
  fun _ _ => Except.ok ⟨0, []⟩

/-- A Search Executor that faults on the query hunting the indicator
`"not-an-ioc-but-fine"` (at `now = 0`, range `"1h"`) and returns three
matches otherwise. -/
def faulty_search : SearchExec :=
  fun _ body =>
    if body = ioc_query_body 0 "1h" "not-an-ioc-but-fine" then
      Except.error "boom"
    else Except.ok ⟨3, []⟩

/-- A sample hit with both message fields present. -/
def sample_hit : Hit :=
  ⟨some "2024-01-01T10:00:00Z", some "login ok", none⟩

/-- A hit whose message is 2100 characters, blowing the 2000-character
context budget by itself. -/
def oversize_hit : Hit :=
  ⟨none, some (String.mk (List.replicate 2100 'a')), none⟩

/-! ## Library-style helper lemmas -/

theorem strData_append (a b : String) : (a ++ b).data = a.data ++ b.data :=
  rfl

theorem strData_mk (l : List Char) : (String.mk l).data = l :=
  rfl

theorem all_eq_false_of_mem {α : Type} {l : List α} {f : α → Bool} {x : α}
    (hx : x ∈ l) (hfx : f x = false) : l.all f = false := by
  cases h : l.all f with
  | false => rfl
  | true =>
    exact absurd (List.all_eq_true.mp h x hx) (by simp [hfx])

theorem takeWhile_append_all {α : Type} (p : α → Bool) (b : List α) :
    ∀ a : List α, (∀ x ∈ a, p x = true) →
      (a ++ b).takeWhile p = a ++ b.takeWhile p
  | [], _ => rfl
  | x :: xs, ha => by
    have hx : p x = true := ha x (by simp)
    have hxs := takeWhile_append_all p b xs fun y hy => ha y (by simp [hy])
    simp [List.takeWhile_cons, hx, hxs]

/-! ## Facts about `splitOnChar` -/

theorem splitOnChar_exists_cons (sep : Char) (l : List Char) :
    ∃ p ps, splitOnChar sep l = p :: ps := by
  induction l with
  | nil => exact ⟨[], [], rfl⟩
  | cons c rest ih =>
    obtain ⟨p, ps, hp⟩ := ih
    by_cases hc : c = sep
    · exact ⟨[], splitOnChar sep rest, by simp [splitOnChar, hc]⟩
    · exact ⟨c :: p, ps, by simp [splitOnChar, hc, hp]⟩

theorem splitOnChar_cons_ne {sep c : Char} (l : List Char) (hc : c ≠ sep)
    {p : List Char} {ps : List (List Char)}
    (h : splitOnChar sep l = p :: ps) :
    splitOnChar sep (c :: l) = (c :: p) :: ps := by
  simp [splitOnChar, hc, h]

theorem splitOnChar_sep_cons (sep : Char) (l : List Char) :
    splitOnChar sep (sep :: l) = [] :: splitOnChar sep l := by
  simp [splitOnChar]

theorem splitOnChar_no_sep {sep : Char} {l : List Char}
    (h : ∀ x ∈ l, x ≠ sep) : splitOnChar sep l = [l] := by
  induction l with
  | nil => rfl
  | cons c rest ih =>
    have hc : c ≠ sep := h c (by simp)
    have hrest := ih fun x hx => h x (by simp [hx])
    simp [splitOnChar, hc, hrest]

theorem splitOnChar_append {sep : Char} {a l : List Char}
    (ha : ∀ x ∈ a, x ≠ sep) {p : List Char} {ps : List (List Char)}
    (h : splitOnChar sep l = p :: ps) :
    splitOnChar sep (a ++ l) = (a ++ p) :: ps := by
  induction a with
  | nil => simpa using h
  | cons c cs ih =>
    have hc : c ≠ sep := ha c (by simp)
    have hcs := ih fun x hx => ha x (by simp [hx])
    simpa using splitOnChar_cons_ne (cs ++ l) hc hcs

theorem splitOnChar_append_sep {sep : Char} {a : List Char}
    (l : List Char) (ha : ∀ x ∈ a, x ≠ sep) :
    splitOnChar sep (a ++ sep :: l) = a :: splitOnChar sep l := by
  have h := splitOnChar_append ha (splitOnChar_sep_cons sep l)
  simpa using h

/-! ## Facts about the octet language -/

theorem matchesOctet_head_digit {c : Char} {rest : List Char}
    (h : c.isDigit = false) : matchesOctet (c :: rest) = false := by
  have h2 : (c == '2') = false := by
    cases hb : c == '2' with
    | false => rfl
    | true =>
      have hc : c = '2' := eq_of_beq hb
      subst hc
      exact absurd h (by decide)
  have h0 : (c == '0') = false := by
    cases hb : c == '0' with
    | false => rfl
    | true =>
      have hc : c = '0' := eq_of_beq hb
      subst hc
      exact absurd h (by decide)
  have h1 : (c == '1') = false := by
    cases hb : c == '1' with
    | false => rfl
    | true =>
      have hc : c = '1' := eq_of_beq hb
      subst hc
      exact absurd h (by decide)
  match rest with
  | [] => simp [matchesOctet, h]
  | [b] => simp [matchesOctet, h]
  | [b, d] => simp [matchesOctet, h2, h0, h1]
  | b :: d :: e :: t => rfl

/-- Kernel-checked facts about decimal representations of octet values:
they match the octet block and contain no dot (so `splitOnChar` treats them
as single parts). -/
theorem repr_octet_facts :
    ∀ n < 256, matchesOctet (Nat.repr n).data = true ∧
      (Nat.repr n).data.all (fun c => !(c == '.')) = true := by
  set_option maxRecDepth 100000 in decide

/-! ## Facts about the anchored-match wrapper `reMatchList` -/

theorem reMatchList_of_matches {m : List Char → Bool} {cs : List Char}
    (h : m cs = true) : reMatchList m cs = true := by
  simp [reMatchList, h]

theorem reMatchList_no_trailing_newline {m : List Char → Bool}
    {cs : List Char}
    (h : ∀ z, cs.getLast? = some z → (z == '\n') = false) :
    reMatchList m cs = m cs := by
  unfold reMatchList
  cases hg : cs.getLast? with
  | none => simp
  | some z => simp [h z hg]

/-! ## Negative facts about the individual patterns -/

theorem ipParts_head_not_digit {c : Char} {p : List Char}
    {ps : List (List Char)} (h : c.isDigit = false) :
    ipParts ((c :: p) :: ps) = false := by
  match ps with
  | [] => rfl
  | [b] => rfl
  | [b, d] => rfl
  | [b, d, e] => simp [ipParts, matchesOctet_head_digit h]
  | b :: d :: e :: f :: t => rfl

theorem matchesIp_head_not_digit {c : Char} {l : List Char}
    (hdot : c ≠ '.') (h : c.isDigit = false) :
    matchesIp (c :: l) = false := by
  obtain ⟨p, ps, hp⟩ := splitOnChar_exists_cons '.' l
  unfold matchesIp
  rw [splitOnChar_cons_ne l hdot hp]
  exact ipParts_head_not_digit h

theorem ipParts_single (x : List Char) : ipParts [x] = false := rfl

theorem domainParts_single (x : List Char) : domainParts [x] = false := by
  simp [domainParts]

theorem matchesLabel_mem {l : List Char} (h : matchesLabel l = true) :
    ∀ c ∈ l, (isAlnumChar c || c == '-') = true := by
  match l with
  | [] => simp [matchesLabel] at h
  | a :: rest =>
    intro c hc
    rw [matchesLabel, Bool.and_eq_true] at h
    rcases List.mem_cons.mp hc with rfl | hcr
    · simp [h.1]
    · have h2 := h.2
      cases hg : rest.getLast? with
      | none =>
        rw [List.getLast?_eq_none_iff.mp hg] at hcr
        simp at hcr
      | some z =>
        rw [hg] at h2
        simp only [Bool.and_eq_true] at h2
        have hne : rest ≠ [] := by
          intro hnil
          rw [hnil] at hg
          simp at hg
        have hzl : rest.getLast hne = z := by
          have := List.getLast?_eq_getLast rest hne
          rw [hg] at this
          exact (Option.some_injective _ this.symm)
        have hdecomp := List.dropLast_append_getLast hne
        rw [hzl] at hdecomp
        rw [← hdecomp] at hcr
        rcases List.mem_append.mp hcr with hcd | hcz
        · exact List.all_eq_true.mp h2.2 c hcd
        · have hce : c = z := by simpa using hcz
          subst hce
          simp [h2.1.2]

theorem matchesDomain_append_bad {a rest : List Char} (bad : Char)
    (hnd : ∀ x ∈ a, x ≠ '.') (hmem : bad ∈ a)
    (hbad : (isAlnumChar bad || bad == '-') = false) :
    matchesDomain (a ++ rest) = false := by
  obtain ⟨p, ps, hp⟩ := splitOnChar_exists_cons '.' rest
  unfold matchesDomain
  rw [splitOnChar_append hnd hp]
  have hlab : matchesLabel (a ++ p) = false := by
    cases hl : matchesLabel (a ++ p) with
    | false => rfl
    | true =>
      exact absurd (matchesLabel_mem hl bad (List.mem_append_left p hmem))
        (by simp [hbad])
  match ps with
  | [] => simp [domainParts]
  | q :: qs =>
    have hall : ((a ++ p) :: q :: qs).dropLast.all matchesLabel = false := by
      apply all_eq_false_of_mem _ hlab
      rw [List.dropLast_cons₂]
      exact List.mem_cons_self _ _
    unfold domainParts
    rw [hall]
    simp

theorem matchesHexLen_false_of_bad {cs : List Char} {bad : Char} {n : Nat}
    (hmem : bad ∈ cs) (hbad : isHexChar bad = false) :
    (decide (cs.length = n) && cs.all isHexChar) = false := by
  rw [all_eq_false_of_mem hmem hbad]
  simp

theorem matchesEmail_append_bad {a rest : List Char} (bad : Char)
    (hna : ∀ x ∈ a, (x == '@') = false) (hmem : bad ∈ a)
    (hbad : isLocalChar bad = false) :
    matchesEmail (a ++ rest) = false := by
  have htw : (a ++ rest).takeWhile (fun c => !(c == '@')) =
      a ++ rest.takeWhile (fun c => !(c == '@')) :=
    takeWhile_append_all _ rest a fun x hx => by simp [hna x hx]
  have hall : ((a ++ rest).takeWhile (fun c => !(c == '@'))).all
      isLocalChar = false := by
    rw [htw]
    exact all_eq_false_of_mem (List.mem_append_left _ hmem) hbad
  unfold matchesEmail
  split
  · rw [hall]
    simp
  · rfl

/-! ## Classification of whole families of inputs -/

theorem hex_no_trailing_newline {cs : List Char}
    (hhex : cs.all isHexChar = true) :
    ∀ z, cs.getLast? = some z → (z == '\n') = false := by
  intro z hz
  have hzhex := List.all_eq_true.mp hhex z (List.mem_of_mem_getLast? hz)
  cases hb : z == '\n' with
  | false => rfl
  | true =>
    have hzn : z = '\n' := eq_of_beq hb
    subst hzn
    exact absurd hzhex (by decide)

theorem hex_split_single {cs : List Char} (hhex : cs.all isHexChar = true) :
    splitOnChar '.' cs = [cs] := by
  apply splitOnChar_no_sep
  intro x hx hdot
  have := List.all_eq_true.mp hhex x hx
  subst hdot
  exact absurd this (by decide)

/-- The common shape of the three hash-family classifications: for an
all-hex string, the ip and domain patterns fail and the wrapper is the
plain matcher. -/
theorem detect_hex_prefix {s : String} (hhex : s.data.all isHexChar = true) :
    reMatchList matchesIp s.data = false ∧
      reMatchList matchesDomain s.data = false ∧
      (∀ m, reMatchList m s.data = m s.data) := by
  have hwrap : ∀ m, reMatchList m s.data = m s.data := fun m =>
    reMatchList_no_trailing_newline (hex_no_trailing_newline hhex)
  refine ⟨?_, ?_, hwrap⟩
  · rw [hwrap]
    unfold matchesIp
    rw [hex_split_single hhex]
    exact ipParts_single _
  · rw [hwrap]
    unfold matchesDomain
    rw [hex_split_single hhex]
    exact domainParts_single _

theorem detect_hex32 {s : String} (hlen : s.data.length = 32)
    (hhex : s.data.all isHexChar = true) : detect_ioc_type s = .md5 := by
  obtain ⟨hip, hdom, hwrap⟩ := detect_hex_prefix hhex
  have hmd5 : matchesMd5 s.data = true := by
    unfold matchesMd5
    rw [hlen, hhex]
    simp
  unfold detect_ioc_type
  rw [hip, hdom, hwrap matchesMd5, hmd5]
  simp

theorem detect_hex40 {s : String} (hlen : s.data.length = 40)
    (hhex : s.data.all isHexChar = true) : detect_ioc_type s = .sha1 := by
  obtain ⟨hip, hdom, hwrap⟩ := detect_hex_prefix hhex
  have hmd5 : matchesMd5 s.data = false := by
    unfold matchesMd5
    rw [hlen]
    simp
  have hsha1 : matchesSha1 s.data = true := by
    unfold matchesSha1
    rw [hlen, hhex]
    simp
  unfold detect_ioc_type
  rw [hip, hdom, hwrap matchesMd5, hmd5, hwrap matchesSha1, hsha1]
  simp

theorem detect_hex64 {s : String} (hlen : s.data.length = 64)
    (hhex : s.data.all isHexChar = true) : detect_ioc_type s = .sha256 := by
  obtain ⟨hip, hdom, hwrap⟩ := detect_hex_prefix hhex
  have hmd5 : matchesMd5 s.data = false := by
    unfold matchesMd5
    rw [hlen]
    simp
  have hsha1 : matchesSha1 s.data = false := by
    unfold matchesSha1
    rw [hlen]
    simp
  have hsha256 : matchesSha256 s.data = true := by
    unfold matchesSha256
    rw [hlen, hhex]
    simp
  unfold detect_ioc_type
  rw [hip, hdom, hwrap matchesMd5, hmd5, hwrap matchesSha1, hsha1,
    hwrap matchesSha256, hsha256]
  simp

theorem detect_dotted_quad {n1 n2 n3 n4 : Nat} (h1 : n1 < 256)
    (h2 : n2 < 256) (h3 : n3 < 256) (h4 : n4 < 256) :
    detect_ioc_type
      (Nat.repr n1 ++ "." ++ Nat.repr n2 ++ "." ++ Nat.repr n3 ++ "." ++
        Nat.repr n4) = .ip := by
  have hdot : ("." : String).data = ['.'] := rfl
  have hnd : ∀ n < 256, ∀ x ∈ (Nat.repr n).data, x ≠ '.' := by
    intro n hn x hx hdx
    have := List.all_eq_true.mp ((repr_octet_facts n hn).2) x hx
    rw [hdx] at this
    simp at this
  have hdata :
      (Nat.repr n1 ++ "." ++ Nat.repr n2 ++ "." ++ Nat.repr n3 ++ "." ++
        Nat.repr n4).data =
      (Nat.repr n1).data ++ '.' :: ((Nat.repr n2).data ++ '.' ::
        ((Nat.repr n3).data ++ '.' :: (Nat.repr n4).data)) := by
    simp [strData_append, hdot]
  have hsplit4 : splitOnChar '.' (Nat.repr n4).data =
      [(Nat.repr n4).data] :=
    splitOnChar_no_sep (hnd n4 h4)
  have hsplit3 := splitOnChar_append_sep ((Nat.repr n4).data) (hnd n3 h3)
  have hsplit2 := splitOnChar_append_sep
    ((Nat.repr n3).data ++ '.' :: (Nat.repr n4).data) (hnd n2 h2)
  have hsplit1 := splitOnChar_append_sep
    ((Nat.repr n2).data ++ '.' :: ((Nat.repr n3).data ++ '.' ::
      (Nat.repr n4).data)) (hnd n1 h1)
  have hip : matchesIp ((Nat.repr n1).data ++ '.' :: ((Nat.repr n2).data ++
      '.' :: ((Nat.repr n3).data ++ '.' :: (Nat.repr n4).data))) = true := by
    unfold matchesIp
    rw [hsplit1, hsplit2, hsplit3, hsplit4]
    show (matchesOctet (Nat.repr n1).data && matchesOctet (Nat.repr n2).data &&
      matchesOctet (Nat.repr n3).data && matchesOctet (Nat.repr n4).data)
        = true
    rw [(repr_octet_facts n1 h1).1, (repr_octet_facts n2 h2).1,
      (repr_octet_facts n3 h3).1, (repr_octet_facts n4 h4).1]
    rfl
  unfold detect_ioc_type
  rw [hdata, reMatchList_of_matches hip]
  simp

theorem not_newline_of_not_space {c : Char} (h : pySpace c = false) :
    (c == '\n') = false := by
  cases hb : c == '\n' with
  | false => rfl
  | true =>
    have hc : c = '\n' := eq_of_beq hb
    subst hc
    exact absurd h (by decide)

theorem getLast_not_newline {t : List Char} :
    ∀ {b : Char}, (b == '\n') = false →
      t.all (fun c => !(pySpace c)) = true →
      ∀ z, (b :: t).getLast? = some z → (z == '\n') = false := by
  induction t with
  | nil =>
    intro b hb _ z hz
    simp at hz
    rw [← hz]
    exact hb
  | cons c t2 ih =>
    intro b hb ht z hz
    rw [List.getLast?_cons_cons] at hz
    rw [List.all_cons, Bool.and_eq_true] at ht
    have hc : (c == '\n') = false :=
      not_newline_of_not_space (by simpa using ht.1)
    exact ih hc ht.2 z hz

/-- Classification of a scheme-prefixed string whose post-scheme content
satisfies the url pattern's three conditions: every earlier pattern fails
and the url pattern succeeds. -/
theorem detect_url_core {sch : List Char}
    (hsch : sch = httpChars ∨ sch = httpsChars) {a b : Char} {t : List Char}
    (ha : urlFirstOk a = true) (hb : (b == '\n') = false)
    (ht : t.all (fun c => !(pySpace c)) = true) :
    detect_ioc_type (String.mk (sch ++ a :: b :: t)) = .url := by
  have hlast : ∀ z, (sch ++ a :: b :: t).getLast? = some z →
      (z == '\n') = false := by
    intro z hz
    rw [List.getLast?_append, List.getLast?_cons_cons] at hz
    cases hg : (b :: t).getLast? with
    | none =>
      exact absurd (List.getLast?_eq_none_iff.mp hg) (by simp)
    | some w =>
      rw [hg] at hz
      simp only [Option.or_some] at hz
      have hwz : w = z := by simpa using hz
      rw [← hwz]
      exact getLast_not_newline hb ht w hg
  have hwrap : ∀ m, reMatchList m (sch ++ a :: b :: t) = m (sch ++ a :: b :: t) :=
    fun m => reMatchList_no_trailing_newline hlast
  have hcolon : ':' ∈ sch := by
    rcases hsch with rfl | rfl <;> decide
  have hallhex : (sch ++ a :: b :: t).all isHexChar = false :=
    all_eq_false_of_mem (List.mem_append_left _ hcolon) (by decide)
  have hip : matchesIp (sch ++ a :: b :: t) = false := by
    rcases hsch with rfl | rfl
    · rw [show httpChars ++ a :: b :: t =
        'h' :: (['t', 't', 'p', ':', '/', '/'] ++ a :: b :: t) from rfl]
      exact matchesIp_head_not_digit (by decide) (by decide)
    · rw [show httpsChars ++ a :: b :: t =
        'h' :: (['t', 't', 'p', 's', ':', '/', '/'] ++ a :: b :: t) from rfl]
      exact matchesIp_head_not_digit (by decide) (by decide)
  have hdom : matchesDomain (sch ++ a :: b :: t) = false := by
    apply matchesDomain_append_bad '/'
    · rcases hsch with rfl | rfl <;> decide
    · rcases hsch with rfl | rfl <;> decide
    · decide
  have hmd5 : matchesMd5 (sch ++ a :: b :: t) = false := by
    unfold matchesMd5
    rw [hallhex]
    simp
  have hsha1 : matchesSha1 (sch ++ a :: b :: t) = false := by
    unfold matchesSha1
    rw [hallhex]
    simp
  have hsha256 : matchesSha256 (sch ++ a :: b :: t) = false := by
    unfold matchesSha256
    rw [hallhex]
    simp
  have hemail : matchesEmail (sch ++ a :: b :: t) = false := by
    apply matchesEmail_append_bad ':'
    · rcases hsch with rfl | rfl <;> decide
    · exact hcolon
    · decide
  have hurl : matchesUrl (sch ++ a :: b :: t) = true := by
    rcases hsch with rfl | rfl
    · show (urlFirstOk a && !(b == '\n') &&
        t.all (fun c => !(pySpace c))) = true
      rw [ha, hb, ht]
      rfl
    · show (urlFirstOk a && !(b == '\n') &&
        t.all (fun c => !(pySpace c))) = true
      rw [ha, hb, ht]
      rfl
  unfold detect_ioc_type
  simp only [strData_mk]
  rw [hwrap matchesIp, hip, hwrap matchesDomain, hdom, hwrap matchesMd5,
    hmd5, hwrap matchesSha1, hsha1, hwrap matchesSha256, hsha256,
    hwrap matchesEmail, hemail, hwrap matchesUrl, hurl]
  simp

/-! ## Facts about the dict operations -/

theorem dictGet_insert_self {α : Type} (d : List (String × α)) (k : String)
    (v : α) : dictGet (dictInsert d k v) k = some v := by
  induction d with
  | nil => simp [dictGet, dictInsert]
  | cons p rest ih =>
    by_cases h : p.1 = k
    · simp [dictGet, dictInsert, h]
    · simp [dictGet, dictInsert, h, ih]

theorem dictGet_insert_ne {α : Type} (d : List (String × α)) {k k' : String}
    (v : α) (h : k' ≠ k) : dictGet (dictInsert d k v) k' = dictGet d k' := by
  have hkk : ¬ k = k' := fun he => h he.symm
  induction d with
  | nil =>
    simp [dictInsert, dictGet, hkk]
  | cons p rest ih =>
    obtain ⟨k0, w⟩ := p
    by_cases hp : k0 = k
    · rw [dictInsert, if_pos hp, dictGet, dictGet]
      have hp' : ¬ k0 = k' := by rw [hp]; exact hkk
      rw [if_neg hp', if_neg hp']
    · rw [dictInsert, if_neg hp, dictGet, dictGet]
      by_cases hp' : k0 = k'
      · rw [if_pos hp', if_pos hp']
      · rw [if_neg hp', if_neg hp', ih]

theorem dictInsert_fresh {α : Type} {d : List (String × α)} {k : String}
    (v : α) (h : dictGet d k = none) : dictInsert d k v = d ++ [(k, v)] := by
  induction d with
  | nil => rfl
  | cons p rest ih =>
    rw [dictGet] at h
    by_cases hp : p.1 = k
    · simp [hp] at h
    · rw [if_neg hp] at h
      simp [dictInsert, hp, ih h]

theorem keys_dictInsert_some {α : Type} {d : List (String × α)} {k : String}
    {v0 : α} (h : dictGet d k = some v0) (v : α) :
    (dictInsert d k v).map Prod.fst = d.map Prod.fst := by
  induction d with
  | nil => simp [dictGet] at h
  | cons p rest ih =>
    obtain ⟨k0, w⟩ := p
    rw [dictGet] at h
    by_cases hp : k0 = k
    · rw [dictInsert, if_pos hp]
      simp
    · rw [if_neg hp] at h
      rw [dictInsert, if_neg hp]
      simp [ih h]

theorem dictGet_append_single_ne {α : Type} (acc : List (String × α))
    {j k : String} (v : α) (hji : j ≠ k) (hacc : dictGet acc j = none) :
    dictGet (acc ++ [(k, v)]) j = none := by
  induction acc with
  | nil =>
    rw [List.nil_append, dictGet, if_neg (fun he : k = j => hji he.symm)]
    rfl
  | cons p ps ih =>
    obtain ⟨k0, w⟩ := p
    rw [dictGet] at hacc
    rw [List.cons_append, dictGet]
    by_cases hp : k0 = j
    · simp [hp] at hacc
    · rw [if_neg hp] at hacc ⊢
      exact ih hacc

theorem dictGet_none_not_mem {α : Type} {d : List (String × α)} {k : String}
    (h : dictGet d k = none) : k ∉ d.map Prod.fst := by
  induction d with
  | nil => simp
  | cons p rest ih =>
    rw [dictGet] at h
    by_cases hp : p.1 = k
    · simp [hp] at h
    · rw [if_neg hp] at h
      simp only [List.map_cons, List.mem_cons]
      rintro (rfl | hm)
      · exact hp rfl
      · exact ih h hm

theorem mem_of_dictGet_some {α : Type} {d : List (String × α)} {k : String}
    {v : α} (h : dictGet d k = some v) : k ∈ d.map Prod.fst := by
  induction d with
  | nil => simp [dictGet] at h
  | cons p rest ih =>
    rw [dictGet] at h
    by_cases hp : p.1 = k
    · simp [hp]
    · rw [if_neg hp] at h
      simp [ih h]

/-! ## `hunt_iocs`: the loop as repeated dict insertion -/

theorem build_ioc_query_ne_empty (ioc : String) (ty : IocType) :
    build_ioc_query ioc ty ≠ "" := by
  intro h
  have hd := congrArg String.data h
  cases ty <;> simp [build_ioc_query] at hd

theorem hunt_iocs_step_eq (search : SearchExec) (now : Int)
    (time_range : String) (acc : List (String × IocEntry)) (ioc : String) :
    hunt_iocs_step search now time_range acc ioc =
      dictInsert acc ioc (ioc_entry search now time_range ioc) := by
  unfold hunt_iocs_step ioc_entry ioc_query_body
  rw [if_neg (build_ioc_query_ne_empty ioc (detect_ioc_type ioc))]
  cases h : search "*" (ioc_body (build_ioc_query ioc (detect_ioc_type ioc))
      (hunt_time_start now time_range)) with
  | ok r => rfl
  | error e => rfl

theorem hunt_iocs_fold_get (search : SearchExec) (now : Int)
    (time_range : String) :
    ∀ (iocs : List String) (acc : List (String × IocEntry)) (k : String),
      dictGet (iocs.foldl (hunt_iocs_step search now time_range) acc) k =
        if k ∈ iocs then some (ioc_entry search now time_range k)
        else dictGet acc k := by
  intro iocs
  induction iocs with
  | nil => intro acc k; simp
  | cons i rest ih =>
    intro acc k
    rw [List.foldl_cons, hunt_iocs_step_eq, ih]
    by_cases hk : k ∈ rest
    · simp [hk]
    · by_cases hki : k = i
      · subst hki
        simp [hk, dictGet_insert_self]
      · simp [hk, hki, dictGet_insert_ne acc _ hki]

theorem hunt_iocs_fold_nodup_keys (search : SearchExec) (now : Int)
    (time_range : String) :
    ∀ (iocs : List String) (acc : List (String × IocEntry)),
      (acc.map Prod.fst).Nodup →
      ((iocs.foldl (hunt_iocs_step search now time_range) acc).map
        Prod.fst).Nodup := by
  intro iocs
  induction iocs with
  | nil => intro acc h; simpa using h
  | cons i rest ih =>
    intro acc h
    rw [List.foldl_cons, hunt_iocs_step_eq]
    apply ih
    cases hg : dictGet acc i with
    | some v =>
      rw [keys_dictInsert_some hg]
      exact h
    | none =>
      rw [dictInsert_fresh _ hg, List.map_append, List.nodup_append]
      exact ⟨h, List.nodup_singleton i,
        by simpa using dictGet_none_not_mem hg⟩

theorem hunt_iocs_fold_fresh (search : SearchExec) (now : Int)
    (time_range : String) :
    ∀ (iocs : List String) (acc : List (String × IocEntry)),
      iocs.Nodup → (∀ i ∈ iocs, dictGet acc i = none) →
      iocs.foldl (hunt_iocs_step search now time_range) acc =
        acc ++ iocs.map (fun i => (i, ioc_entry search now time_range i)) := by
  intro iocs
  induction iocs with
  | nil => intro acc _ _; simp
  | cons i rest ih =>
    intro acc hnd hfresh
    rw [List.foldl_cons, hunt_iocs_step_eq,
      dictInsert_fresh _ (hfresh i (by simp))]
    rw [ih (acc ++ [(i, ioc_entry search now time_range i)])
      (List.Nodup.of_cons hnd) ?_]
    · simp
    · intro j hj
      have hji : j ≠ i := by
        intro he
        subst he
        exact (List.nodup_cons.mp hnd).1 hj
      exact dictGet_append_single_ne acc _ hji (hfresh j (by simp [hj]))

/-! ## Facts about `_create_timeline` and the prompt assembly -/

theorem strTake_length (s : String) (n : Nat) :
    (strTake s n).length = min n s.length :=
  List.length_take n s.data

theorem timeline_step_get (acc : List (String × Nat)) (hit : Hit)
    (k : String) :
    (dictGet (timeline_step acc hit) k).getD 0 =
      (dictGet acc k).getD 0 + (if hit_on_day k hit then 1 else 0) := by
  unfold timeline_step hit_on_day
  by_cases hts : hit.timestamp.getD "Unknown" = "Unknown"
  · rw [hts]
    simp
  · rw [if_pos hts]
    by_cases hk : strTake (hit.timestamp.getD "Unknown") 10 = k
    · rw [hk, dictGet_insert_self]
      simp [hts, hk]
    · rw [dictGet_insert_ne acc _ (fun he => hk he.symm)]
      simp [hts, hk]

theorem create_timeline_fold (k : String) :
    ∀ (hits : List Hit) (acc : List (String × Nat)),
      (dictGet (hits.foldl timeline_step acc) k).getD 0 =
        (dictGet acc k).getD 0 + hits.countP (hit_on_day k) := by
  intro hits
  induction hits with
  | nil => intro acc; simp
  | cons h hs ih =>
    intro acc
    rw [List.foldl_cons, ih, timeline_step_get, List.countP_cons]
    by_cases hd : hit_on_day k h
    · simp [hd]
      omega
    · simp [hd]

theorem log_context_take_ten (total : Nat) (hits extra : List Hit)
    (h : hits.length = 10) :
    log_context (some ⟨total, hits ++ extra⟩) =
      log_context (some ⟨total, hits⟩) := by
  have htake : (hits ++ extra).take 10 = hits.take 10 := by
    rw [← h, List.take_left, List.take_length]
  simp only [log_context]
  rw [htake]

theorem dictGet_pairs_map {α : Type} (f : String → α) :
    ∀ (l : List String) (k : String), k ∈ l →
      dictGet (l.map fun i => (i, f i)) k = some (f k) := by
  intro l
  induction l with
  | nil => intro k hk; simp at hk
  | cons i rest ih =>
    intro k hk
    rw [List.map_cons, dictGet]
    by_cases hik : i = k
    · rw [if_pos hik, hik]
    · rw [if_neg hik]
      exact ih k (by
        rcases List.mem_cons.mp hk with rfl | hm
        · exact absurd rfl hik
        · exact hm)

/-! ## The verified claims -/

/-- C1 (counterexample): with the unknown time-range token `"banana"`, the
unusual-logins anomaly sub-hunt query embeds the raw token as the date-math
bound `now-banana` — and none of the four sub-hunt queries carries an
absolute (24-hour-default) lower bound; the token is not replaced by the
24-hour default. -/
theorem hunt_anomalies_banana_embeds_token :
    Clause.rangeGteExpr "@timestamp" "now-banana" ∈
      (unusual_login_times_body "banana").must ∧
    Clause.rangeGteExpr "@timestamp" "now-banana" ∈
      (privilege_escalation_body "banana").must ∧
    Clause.rangeGteExpr "@timestamp" "now-banana" ∈
      (data_exfiltration_body "banana").must ∧
    Clause.rangeGteExpr "@timestamp" "now-banana" ∈
      (lateral_movement_body "banana").must ∧
    (unusual_login_times_body "banana").must.any is_absolute_time_clause
      = false ∧
    (privilege_escalation_body "banana").must.any is_absolute_time_clause
      = false ∧
    (data_exfiltration_body "banana").must.any is_absolute_time_clause
      = false ∧
    (lateral_movement_body "banana").must.any is_absolute_time_clause
      = false := by
  decide

/-- C1 (as amended): for every time-range token — known or unknown — each of
the four `hunt_anomalies` sub-hunt queries carries the relative lower bound
`now-<token>` with the token embedded verbatim, and never an absolute
default bound. -/
theorem hunt_anomalies_embeds_every_token (tr : String) :
    Clause.rangeGteExpr "@timestamp" ("now-" ++ tr) ∈
      (unusual_login_times_body tr).must ∧
    Clause.rangeGteExpr "@timestamp" ("now-" ++ tr) ∈
      (privilege_escalation_body tr).must ∧
    Clause.rangeGteExpr "@timestamp" ("now-" ++ tr) ∈
      (data_exfiltration_body tr).must ∧
    Clause.rangeGteExpr "@timestamp" ("now-" ++ tr) ∈
      (lateral_movement_body tr).must ∧
    (unusual_login_times_body tr).must.any is_absolute_time_clause = false ∧
    (privilege_escalation_body tr).must.any is_absolute_time_clause = false ∧
    (data_exfiltration_body tr).must.any is_absolute_time_clause = false ∧
    (lateral_movement_body tr).must.any is_absolute_time_clause = false := by
  refine ⟨?_, ?_, ?_, ?_, rfl, rfl, rfl, rfl⟩ <;>
    simp [unusual_login_times_body, privilege_escalation_body,
      data_exfiltration_body, lateral_movement_body]

/-- C2 (counterexample): `"http://a"` is `http://` followed by one
non-whitespace character and contains no whitespace, yet `classify` returns
`unknown`, not `url` — the url pattern `^https?://[^\s/$.?#].[^\s]*$`
demands at least two characters after the scheme. -/
theorem classify_url_one_char_counterexample :
    "http://a".data = httpChars ++ ['a'] ∧
    "http://a".data.all (fun c => !(pySpace c)) = true ∧
    detect_ioc_type "http://a" = IocType.unknown := by
  decide

/-- C2 (as amended): every string of the form `http://` or `https://`
followed by at least two characters — the first outside `\s/$.?#`, the
second not a newline, the rest non-whitespace — classifies as `url` (such a
string can match none of the six higher-priority patterns). -/
theorem classify_url_of_scheme_and_two_chars (secure : Bool) (a b : Char)
    (t : List Char) (ha : urlFirstOk a = true) (hb : (b == '\n') = false)
    (ht : t.all (fun c => !(pySpace c)) = true) :
    detect_ioc_type
      (String.mk ((if secure then httpsChars else httpChars) ++ a :: b :: t))
      = IocType.url := by
  cases secure with
  | false => exact detect_url_core (Or.inl rfl) ha hb ht
  | true => exact detect_url_core (Or.inr rfl) ha hb ht

/-- C2 (witness): the amended theorem at the concrete inputs `http://ab`
and `https://ab`. -/
theorem classify_url_of_scheme_and_two_chars_witness :
    detect_ioc_type (String.mk (httpChars ++ 'a' :: 'b' :: [])) =
      IocType.url ∧
    detect_ioc_type (String.mk (httpsChars ++ 'a' :: 'b' :: [])) =
      IocType.url ∧
    String.mk (httpChars ++ 'a' :: 'b' :: []) = "http://ab" :=
  ⟨classify_url_of_scheme_and_two_chars false 'a' 'b' [] (by decide)
      (by decide) (by decide),
   classify_url_of_scheme_and_two_chars true 'a' 'b' [] (by decide)
      (by decide) (by decide),
   by decide⟩

/-- C3: every dotted quad of octet values 0–255 classifies as `ip`; every
string of exactly 32/40/64 hex digits classifies as `md5`/`sha1`/`sha256`;
and the four concrete examples classify as stated. -/
theorem classify_families_and_examples :
    (∀ n1 n2 n3 n4 : Nat, n1 ≤ 255 → n2 ≤ 255 → n3 ≤ 255 → n4 ≤ 255 →
      detect_ioc_type (Nat.repr n1 ++ "." ++ Nat.repr n2 ++ "." ++
        Nat.repr n3 ++ "." ++ Nat.repr n4) = IocType.ip) ∧
    (∀ s : String, s.length = 32 → (∀ c ∈ s.data, isHexChar c = true) →
      detect_ioc_type s = IocType.md5) ∧
    (∀ s : String, s.length = 40 → (∀ c ∈ s.data, isHexChar c = true) →
      detect_ioc_type s = IocType.sha1) ∧
    (∀ s : String, s.length = 64 → (∀ c ∈ s.data, isHexChar c = true) →
      detect_ioc_type s = IocType.sha256) ∧
    detect_ioc_type "8.8.8.8" = IocType.ip ∧
    detect_ioc_type "evil.example.com" = IocType.domain ∧
    detect_ioc_type "5d41402abc4b2a76b9719d911017c592" = IocType.md5 ∧
    detect_ioc_type "not a valid indicator!!" = IocType.unknown := by
  refine ⟨?_, ?_, ?_, ?_, by decide, by decide, by decide, by decide⟩
  · intro n1 n2 n3 n4 h1 h2 h3 h4
    exact detect_dotted_quad (Nat.lt_succ_of_le h1) (Nat.lt_succ_of_le h2)
      (Nat.lt_succ_of_le h3) (Nat.lt_succ_of_le h4)
  · intro s hlen hhex
    exact detect_hex32 hlen (List.all_eq_true.mpr hhex)
  · intro s hlen hhex
    exact detect_hex40 hlen (List.all_eq_true.mpr hhex)
  · intro s hlen hhex
    exact detect_hex64 hlen (List.all_eq_true.mpr hhex)

/-- C3 (witness): the family statements at concrete inputs. -/
theorem classify_families_and_examples_witness :
    detect_ioc_type (Nat.repr 8 ++ "." ++ Nat.repr 8 ++ "." ++ Nat.repr 8 ++
      "." ++ Nat.repr 8) = IocType.ip ∧
    detect_ioc_type "0123456789abcdef0123456789abcdef" = IocType.md5 ∧
    detect_ioc_type "0123456789abcdef0123456789abcdef01234567" =
      IocType.sha1 ∧
    detect_ioc_type
      "0123456789abcdef0123456789abcdef0123456789abcdef0123456789abcdef" =
      IocType.sha256 :=
  ⟨classify_families_and_examples.1 8 8 8 8 (by decide) (by decide)
      (by decide) (by decide),
   classify_families_and_examples.2.1 _ (by decide) (by decide),
   classify_families_and_examples.2.2.1 _ (by decide) (by decide),
   classify_families_and_examples.2.2.2.1 _ (by decide) (by decide)⟩

/-- C4: `_build_ioc_query` expands kind `ip` to the four ip fields
OR-joined in one parenthesized clause; the three hash kinds all yield the
same clause over all three hash fields; kind `unknown` yields the raw
indicator as a bare quoted term. -/
theorem build_ioc_query_field_expansion (ioc : String) :
    build_ioc_query ioc IocType.ip =
      orJoinParen ["source.ip:\"" ++ ioc ++ "\"",
        "destination.ip:\"" ++ ioc ++ "\"",
        "client.ip:\"" ++ ioc ++ "\"",
        "server.ip:\"" ++ ioc ++ "\""] ∧
    build_ioc_query ioc IocType.md5 = build_ioc_query ioc IocType.sha1 ∧
    build_ioc_query ioc IocType.sha1 = build_ioc_query ioc IocType.sha256 ∧
    build_ioc_query ioc IocType.md5 =
      orJoinParen ["file.hash.md5:\"" ++ ioc ++ "\"",
        "file.hash.sha1:\"" ++ ioc ++ "\"",
        "file.hash.sha256:\"" ++ ioc ++ "\""] ∧
    build_ioc_query ioc IocType.unknown = "\"" ++ ioc ++ "\"" := by
  refine ⟨?_, rfl, rfl, ?_, rfl⟩ <;>
    (apply String.ext
     simp [build_ioc_query, orJoinParen, joinOr])

/-- C5: with the search backend connected and distinct indicators, the
`hunt_iocs` report has exactly one entry per indicator; an indicator on
which the Search Executor faults gets `{error: message}`, while every
non-faulting indicator's entry carries its kind, match count and hits —
no fault aborts the batch. -/
theorem hunt_iocs_per_indicator_isolation (search : SearchExec) (now : Int)
    (iocs : List String) (time_range : String) (hnd : iocs.Nodup) :
    ∃ entries,
      hunt_iocs (some search) now iocs time_range =
        IocHuntResult.report entries ∧
      entries.length = iocs.length ∧
      ∀ ioc ∈ iocs,
        (∀ e, search "*" (ioc_query_body now time_range ioc) =
            Except.error e →
          dictGet entries ioc = some (IocEntry.err e)) ∧
        (∀ r, search "*" (ioc_query_body now time_range ioc) = Except.ok r →
          dictGet entries ioc =
            some (IocEntry.ok (detect_ioc_type ioc) r.total r.hits)) := by
  refine ⟨iocs.map (fun i => (i, ioc_entry search now time_range i)),
    ?_, by simp, ?_⟩
  · show IocHuntResult.report
      (iocs.foldl (hunt_iocs_step search now time_range) []) = _
    rw [hunt_iocs_fold_fresh search now time_range iocs [] hnd
      (fun i _ => rfl)]
    simp
  · intro ioc hioc
    have hget := dictGet_pairs_map (ioc_entry search now time_range) iocs
      ioc hioc
    constructor
    · intro e he
      rw [hget]
      simp [ioc_entry, he]
    · intro r hr
      rw [hget]
      simp [ioc_entry, hr]

/-- C5 (witness): hunting `["1.2.3.4", "not-an-ioc-but-fine"]` against an
executor that faults only on the second indicator: two entries, the first
still carrying its successful match data and the second carrying the
error. -/
theorem hunt_iocs_per_indicator_isolation_witness :
    ∃ entries,
      hunt_iocs (some faulty_search) 0 ["1.2.3.4", "not-an-ioc-but-fine"]
        "1h" = IocHuntResult.report entries ∧
      entries.length = 2 ∧
      dictGet entries "1.2.3.4" =
        some (IocEntry.ok (detect_ioc_type "1.2.3.4") 3 []) ∧
      dictGet entries "not-an-ioc-but-fine" = some (IocEntry.err "boom") := by
  obtain ⟨entries, h1, h2, h3⟩ := hunt_iocs_per_indicator_isolation
    faulty_search 0 ["1.2.3.4", "not-an-ioc-but-fine"] "1h" (by decide)
  refine ⟨entries, h1, h2, ?_, ?_⟩
  · exact (h3 "1.2.3.4" (by simp)).2 ⟨3, []⟩ rfl
  · exact (h3 "not-an-ioc-but-fine" (by simp)).1 "boom" rfl

/-- C6: with the search backend connected, `hunt_mitre_attack` on a
technique id absent from the catalog returns the structured error value
naming the unknown id, for every time-range token; the model is total, so
no exception escapes. -/
theorem hunt_mitre_unknown_technique (search : SearchExec) (now : Int)
    (technique_id time_range : String)
    (h : lookupTechnique technique_id = none) :
    hunt_mitre_attack (some search) now technique_id time_range =
      MitreResult.failure
        ("Unknown MITRE ATT&CK technique: " ++ technique_id) := by
  unfold hunt_mitre_attack
  rw [h]

/-- C6 (witness): `hunt_mitre_attack` on the unknown id `T9999`. -/
theorem hunt_mitre_unknown_technique_witness :
    hunt_mitre_attack (some trivial_search) 0 "T9999" "24h" =
      MitreResult.failure ("Unknown MITRE ATT&CK technique: " ++ "T9999") :=
  hunt_mitre_unknown_technique trivial_search 0 "T9999" "24h" (by decide)

/-- C7: the prompt of `analyze_with_ai` uses at most the first 10 hits
(appending hits beyond the tenth changes nothing); the message falls back
from `message` to `event.original` to the literal `"No message"`; and when
the context block exceeds 2000 characters, the prompt embeds exactly its
first 2000 characters. -/
theorem analyze_prompt_bounds :
    (∀ (total : Nat) (hits extra : List Hit) (q : String),
      hits.length = 10 →
      analyze_prompt (some ⟨total, hits ++ extra⟩) q =
        analyze_prompt (some ⟨total, hits⟩) q) ∧
    (∀ (hit : Hit) (m : String), hit.message = some m →
      hit_message hit = m) ∧
    (∀ (hit : Hit) (o : String), hit.message = none →
      hit.event_original = some o → hit_message hit = o) ∧
    (∀ hit : Hit, hit.message = none → hit.event_original = none →
      hit_message hit = "No message") ∧
    (∀ (logs_data : Option SearchResult) (q : String),
      2000 < (log_context logs_data).length →
      (∃ pre post, analyze_prompt logs_data q =
        pre ++ strTake (log_context logs_data) 2000 ++ post) ∧
      (strTake (log_context logs_data) 2000).length = 2000) := by
  refine ⟨?_, ?_, ?_, ?_, ?_⟩
  · intro total hits extra q h
    unfold analyze_prompt
    rw [log_context_take_ten total hits extra h]
  · intro hit m hm
    simp [hit_message, hm]
  · intro hit o hm ho
    simp [hit_message, hm, ho]
  · intro hit hm ho
    simp [hit_message, hm, ho]
  · intro logs_data q hlen
    constructor
    · refine ⟨"\nYou are a cybersecurity expert analyzing SOC logs. Based on the following log data, answer the user's question.\n\nLOG DATA:\n",
        "  # Limit context length\n\nUSER QUESTION: " ++ q ++
          "\n\nPlease provide:\n1. A clear analysis of the logs\n2. Any security concerns or patterns identified\n3. Recommended actions if applicable\n4. Risk assessment (Low/Medium/High)\n\nKeep your response focused and actionable for SOC analysts.\n",
        ?_⟩
      simp [analyze_prompt, String.append_assoc]
    · rw [strTake_length]
      omega

/-- C7 (witness): the first part at a 15-hit result (10 identical sample
hits plus 5 extra), the fallback equations at concrete hits, and the
truncation at a result whose single hit has a 2100-character message. -/
theorem analyze_prompt_bounds_witness :
    analyze_prompt
        (some ⟨15, List.replicate 10 sample_hit ++
          List.replicate 5 sample_hit⟩) "anything suspicious?" =
      analyze_prompt (some ⟨15, List.replicate 10 sample_hit⟩)
        "anything suspicious?" ∧
    hit_message sample_hit = "login ok" ∧
    hit_message ⟨some "t", none, some "raw event"⟩ = "raw event" ∧
    hit_message ⟨some "t", none, none⟩ = "No message" ∧
    (strTake (log_context (some ⟨1, [oversize_hit]⟩)) 2000).length = 2000 := by
  have hm : (hit_message oversize_hit).length = 2100 := by
    show (List.replicate 2100 'a').length = 2100
    exact List.length_replicate 2100 'a'
  have hbig : 2000 < (log_context (some ⟨1, [oversize_hit]⟩)).length := by
    show 2000 < ("" ++ "Time: " ++ "Unknown" ++ "\nLog: " ++
      hit_message oversize_hit ++ "\n\n").length
    rw [String.length_append, String.length_append, String.length_append,
      String.length_append, String.length_append, hm]
    decide
  exact ⟨analyze_prompt_bounds.1 15 (List.replicate 10 sample_hit)
      (List.replicate 5 sample_hit) "anything suspicious?" (by decide),
    analyze_prompt_bounds.2.1 sample_hit "login ok" rfl,
    analyze_prompt_bounds.2.2.1 ⟨some "t", none, some "raw event"⟩
      "raw event" rfl rfl,
    analyze_prompt_bounds.2.2.2.1 ⟨some "t", none, none⟩ rfl rfl,
    (analyze_prompt_bounds.2.2.2.2 (some ⟨1, [oversize_hit]⟩)
      "anything suspicious?" hbig).2⟩

/-- C8: the timeline of `_create_timeline` counts, under each date key, the
hits whose timestamp is present and whose ten-character day prefix (the UTC
calendar day of an ISO-8601 UTC timestamp) is that key; the three-hit
example yields exactly the stated two-day timeline. -/
theorem create_timeline_day_counts :
    (∀ (hits : List Hit) (k : String),
      (dictGet (create_timeline hits) k).getD 0 =
        hits.countP (hit_on_day k)) ∧
    create_timeline
        [⟨some "2024-01-01T10:00:00Z", none, none⟩,
         ⟨some "2024-01-01T10:00:00Z", none, none⟩,
         ⟨some "2024-01-02T09:00:00Z", none, none⟩] =
      [("2024-01-01", 2), ("2024-01-02", 1)] := by
  constructor
  · intro hits k
    have h := create_timeline_fold k hits []
    simpa [create_timeline, dictGet] using h
  · decide

/-- C9: every structured query body built by any operation of the two
services — log search, alert retrieval, technique hunt, IOC hunt, and each
of the four anomaly sub-hunts — carries a time-window lower bound on the
timestamp field among its `must` clauses. -/
theorem queries_carry_time_lower_bound (now : Int)
    (query time_range severity : String) (limit : Nat)
    (technique : Technique) (start_time : Int) :
    has_timestamp_lower_bound (search_logs_body now query time_range)
      = true ∧
    has_timestamp_lower_bound (security_alerts_body severity limit) = true ∧
    has_timestamp_lower_bound (mitre_body technique start_time) = true ∧
    has_timestamp_lower_bound (ioc_body query start_time) = true ∧
    has_timestamp_lower_bound (unusual_login_times_body time_range) = true ∧
    has_timestamp_lower_bound (privilege_escalation_body time_range)
      = true ∧
    has_timestamp_lower_bound (data_exfiltration_body time_range) = true ∧
    has_timestamp_lower_bound (lateral_movement_body time_range) = true :=
  ⟨rfl, rfl, rfl, rfl, rfl, rfl, rfl, rfl⟩

/-- C10: the `hunt_iocs` report is keyed by the raw indicator string: its
keys are pairwise distinct, and every occurrence of an indicator — also a
repeated one — is answered by the single entry holding the result of
processing that string, so duplicates are never reported separately. -/
theorem hunt_iocs_duplicate_keying (search : SearchExec) (now : Int)
    (iocs : List String) (time_range : String) :
    ∃ entries,
      hunt_iocs (some search) now iocs time_range =
        IocHuntResult.report entries ∧
      (entries.map Prod.fst).Nodup ∧
      ∀ ioc ∈ iocs,
        dictGet entries ioc = some (ioc_entry search now time_range ioc) := by
  refine ⟨iocs.foldl (hunt_iocs_step search now time_range) [], rfl, ?_, ?_⟩
  · exact hunt_iocs_fold_nodup_keys search now time_range iocs []
      (by simp)
  · intro ioc h
    rw [hunt_iocs_fold_get search now time_range iocs [] ioc]
    simp [h]

/-- C10 (witness): hunting the same indicator twice yields a report with
distinct keys and the single entry for that indicator. -/
theorem hunt_iocs_duplicate_keying_witness :
    ∃ entries,
      hunt_iocs (some trivial_search) 0 ["1.2.3.4", "1.2.3.4"] "1h" =
        IocHuntResult.report entries ∧
      (entries.map Prod.fst).Nodup ∧
      dictGet entries "1.2.3.4" =
        some (ioc_entry trivial_search 0 "1h" "1.2.3.4") := by
  obtain ⟨entries, h1, h2, h3⟩ := hunt_iocs_duplicate_keying trivial_search
    0 ["1.2.3.4", "1.2.3.4"] "1h"
  exact ⟨entries, h1, h2, h3 "1.2.3.4" (by simp)⟩
